import Mathlib

/-
Verification of the fixed-width Quality Measures Processor
(quality_measures_processor.go) against its natural-language specification.

The Go program is embedded shallowly:
  * Go strings are modelled as `List Char` (all inputs of interest are ASCII,
    where Go's byte indexing and rune indexing coincide).
  * A Go computation that can return an `error` or hit an unrecovered runtime
    panic (out-of-range slice or index) is modelled by `GoResult`.
  * `strconv.Atoi` and `strconv.ParseBool` are modelled directly from their
    documented grammars (sign + decimal digits; the fixed boolean literal set).
  * `map[string]interface{}` is modelled as an insertion-ordered association
    list with overwrite-on-duplicate-key (`mapInsert`), which preserves Go map
    size and lookup semantics.
-/

namespace QMP

/-- Errors returned (not panicked) by the modelled program, tagged by the
taxonomy the specification uses for each call site. -/
inductive GoError where
  | invalidWidth (s : String)
  | invalidType (s : String)
  | invalidInteger (s : String)
  | invalidBoolean (s : String)
  | ioError (s : String)
  deriving DecidableEq, Repr

/-- Outcome of a Go computation: a normal value, a returned `error`, or an
unrecovered runtime panic (which aborts the whole process). -/
inductive GoResult (α : Type) where
  | ok (a : α)
  | err (e : GoError)
  | panicked
  deriving DecidableEq, Repr

/-- Characters trimmed by `strings.TrimSpace` (ASCII fragment of Unicode
whitespace). -/
def isGoSpace (c : Char) : Bool :=
  (c == ' ') || (c == '\t') || (c == '\n') || (c == '\r') ||
  (c == Char.ofNat 11) || (c == Char.ofNat 12)

def trimSpaceL (s : List Char) : List Char :=
  ((s.dropWhile isGoSpace).reverse.dropWhile isGoSpace).reverse

/-- `strings.TrimSpace`. -/
def trimSpace (s : String) : String := ⟨trimSpaceL s.data⟩

def digitVal (c : Char) : Nat := c.toNat - '0'.toNat

def digitsVal (l : List Char) : Nat :=
  l.foldl (fun acc c => acc * 10 + digitVal c) 0

/-- `strconv.Atoi` on a char list: optional sign followed by a nonempty run of
decimal digits; anything else fails. (Arbitrary-precision: the 64-bit range
check is irrelevant to the inputs considered here.) -/
def AtoiL (l : List Char) : Option Int :=
  match l with
  | [] => none
  | c :: cs =>
    if c = '-' then
      if cs ≠ [] ∧ cs.all Char.isDigit then some (-(digitsVal cs : Int)) else none
    else if c = '+' then
      if cs ≠ [] ∧ cs.all Char.isDigit then some ((digitsVal cs : Int)) else none
    else
      if (c :: cs).all Char.isDigit then some ((digitsVal (c :: cs) : Int)) else none

/-- `strconv.Atoi`. -/
def Atoi (s : String) : Option Int := AtoiL s.data

/-- `strconv.ParseBool`: accepts exactly 1, t, T, TRUE, true, True,
0, f, F, FALSE, false, False. -/
def ParseBool (s : String) : Option Bool :=
  if s = "1" ∨ s = "t" ∨ s = "T" ∨ s = "TRUE" ∨ s = "true" ∨ s = "True" then
    some true
  else if s = "0" ∨ s = "f" ∨ s = "F" ∨ s = "FALSE" ∨ s = "false" ∨ s = "False" then
    some false
  else none

def DATA_TYPE_TEXT : String := "TEXT"
def DATA_TYPE_INTEGER : String := "INTEGER"
def DATA_TYPE_BOOLEAN : String := "BOOLEAN"

def CSV_NAME_INDEX : Nat := 0
def CSV_WIDTH_INDEX : Nat := 1
def CSV_DATA_TYPE_INDEX : Nat := 2

/-- Go's `Field` struct. (The Go field `Type` is rendered `type`, since `Type`
is not a legal Lean field name.) -/
structure Field where
  Name : String
  Width : Int
  type : String
  deriving DecidableEq, Repr

/-- A typed value stored in the decoded record (`interface{}` holding a
string, an int or a bool). -/
inductive Value where
  | str (s : String)
  | int (n : Int)
  | bool (b : Bool)
  deriving DecidableEq, Repr

/-- Insertion into a Go map, modelled on an insertion-ordered association
list: an existing key is overwritten in place, a new key is appended. -/
def mapInsert (m : List (String × Value)) (k : String) (v : Value) :
    List (String × Value) :=
  if m.any (fun p => p.1 == k) then
    m.map (fun p => if p.1 == k then (k, v) else p)
  else m ++ [(k, v)]

/-- Go string slicing `s[a:b]`: in range it yields the half-open range
`[a, b)`; out of range (including `b < a`) it is a runtime panic. -/
def goSlice (s : List Char) (a b : Int) : GoResult (List Char) :=
  if 0 ≤ a ∧ a ≤ b ∧ b ≤ (s.length : Int) then
    .ok ((s.drop a.toNat).take (b - a).toNat)
  else .panicked

/-- Go list indexing `l[i]`: out of range is a runtime panic. -/
def goIndex (l : List String) (i : Nat) : GoResult String :=
  if h : i < l.length then .ok (l.get ⟨i, h⟩) else .panicked

/-- The type switch of `getRecordJson` (lines 171-188) on one trimmed field
value: `BOOLEAN` parses with `strconv.ParseBool` (`InvalidBoolean` on
failure), `INTEGER` with `strconv.Atoi` (`InvalidInteger` on failure),
`TEXT` is the trimmed substring verbatim; a type outside the switch's three
cases stores nothing (Go switch with no default), rendered `ok none`. -/
def coerce (ftype : String) (fieldValue : String) : GoResult (Option Value) :=
  if ftype = DATA_TYPE_BOOLEAN then
    match ParseBool fieldValue with
    | none => .err (.invalidBoolean fieldValue)
    | some b => .ok (some (.bool b))
  else if ftype = DATA_TYPE_INTEGER then
    match Atoi fieldValue with
    | none => .err (.invalidInteger fieldValue)
    | some n => .ok (some (.int n))
  else if ftype = DATA_TYPE_TEXT then
    .ok (some (.str fieldValue))
  else
    .ok none

/-- The field loop of `getRecordJson` (quality_measures_processor.go lines
168-192): running offset `startIndex`, slice `[startIndex, startIndex+Width)`,
trim, coerce by the field type, store the value in the map `data`. -/
def decodeFields (dataRecord : List Char) :
    List Field → Int → List (String × Value) → GoResult (List (String × Value))
  | [], _, data => .ok data
  | field :: rest, startIndex, data =>
    match goSlice dataRecord startIndex (startIndex + field.Width) with
    | .panicked => .panicked
    | .err e => .err e
    | .ok raw =>
      match coerce field.type ⟨trimSpaceL raw⟩ with
      | .err e => .err e
      | .panicked => .panicked
      | .ok none => decodeFields dataRecord rest (startIndex + field.Width) data
      | .ok (some v) =>
        decodeFields dataRecord rest (startIndex + field.Width)
          (mapInsert data field.Name v)

/-- Byte-wise (here: char-wise) string comparison, as Go compares map keys
when `encoding/json` sorts them. -/
def charListLt : List Char → List Char → Bool
  | [], [] => false
  | [], _ :: _ => true
  | _ :: _, [] => false
  | a :: as, b :: bs => if a < b then true else if b < a then false else charListLt as bs

def strLt (a b : String) : Bool := charListLt a.data b.data

def insertByKey (p : String × Value) :
    List (String × Value) → List (String × Value)
  | [] => [p]
  | q :: qs => if strLt p.1 q.1 then p :: q :: qs else q :: insertByKey p qs

def sortByKey : List (String × Value) → List (String × Value)
  | [] => []
  | p :: ps => insertByKey p (sortByKey ps)

def jsonEscapeChar (c : Char) : List Char :=
  if c = '"' then ['\\', '"']
  else if c = '\\' then ['\\', '\\']
  else [c]

def jsonEscape (s : String) : String :=
  ⟨s.data.foldr (fun c acc => jsonEscapeChar c ++ acc) []⟩

def valueToJson : Value → String
  | .str s => "\"" ++ jsonEscape s ++ "\""
  | .int n => toString n
  | .bool b => if b then "true" else "false"

/-- `encoding/json.Marshal` on a map from string to string/int/bool values:
keys are emitted in sorted order; the function is total (this marshalling
never fails on such a map). -/
def jsonMarshal (data : List (String × Value)) : String :=
  "\x7b" ++
    String.intercalate ","
      ((sortByKey data).map (fun p => "\"" ++ jsonEscape p.1 ++ "\":" ++ valueToJson p.2)) ++
  "\x7d"

/-- `getRecordJson` (lines 165-199): decode all fields, then marshal. -/
def getRecordJson (dataRecord : String) (schema : List Field) : GoResult String :=
  match decodeFields dataRecord.data schema 0 [] with
  | .panicked => .panicked
  | .err e => .err e
  | .ok data => .ok (jsonMarshal data)

/-- The validation loop of `getSchema` (lines 111-134), applied to the rows
produced by `csv.ReadAll`: for each row, parse the trimmed width column as an
integer (`InvalidWidth` on failure), check the type column against the three
data types (`InvalidType` on failure), and build the field from columns
0/1/2. Accessing a missing column is a runtime panic, exactly as `record[i]`
in Go. The first failing row aborts the whole schema. -/
def parseSchemaRows : List (List String) → GoResult (List Field)
  | [] => .ok []
  | record :: rest =>
    match goIndex record CSV_WIDTH_INDEX with
    | .err e => .err e
    | .panicked => .panicked
    | .ok widthStr =>
      match Atoi (trimSpace widthStr) with
      | none => .err (.invalidWidth (trimSpace widthStr))
      | some width =>
        match goIndex record CSV_DATA_TYPE_INDEX with
        | .err e => .err e
        | .panicked => .panicked
        | .ok dataType =>
          if dataType ≠ DATA_TYPE_BOOLEAN ∧ dataType ≠ DATA_TYPE_INTEGER ∧
              dataType ≠ DATA_TYPE_TEXT then
            .err (.invalidType dataType)
          else
            match goIndex record CSV_NAME_INDEX with
            | .err e => .err e
            | .panicked => .panicked
            | .ok name =>
              match parseSchemaRows rest with
              | .err e => .err e
              | .panicked => .panicked
              | .ok fields => .ok (⟨name, width, dataType⟩ :: fields)

/-- `strings.LastIndex(s, ".")`: index of the last `'.'`, `-1` if none. -/
def lastIndexDotList : List Char → Int
  | [] => -1
  | c :: cs =>
    let r := lastIndexDotList cs
    if 0 ≤ r then r + 1
    else if c = '.' then 0
    else -1

/-- The data-file-name derivation of `main` (lines 52-57):
`fileName[0:dotIndex] + ".txt"`, or `none` (log and skip) when the schema
file name has no `'.'`. -/
def dataFileNameOf (fileName : String) : Option String :=
  let dotIndex := lastIndexDotList fileName.data
  if dotIndex = -1 then none
  else some (⟨fileName.data.take dotIndex.toNat⟩ ++ ".txt")

/-- The I/O environment a run observes: the schema directory listing, the
parsed CSV rows of each schema file (`os.Open` + `csv.ReadAll`), and the
lines of each data file (`os.Open` + line scan). -/
structure Env where
  schemaDirListing : GoResult (List String)
  schemaRows : String → GoResult (List (List String))
  dataLines : String → GoResult (List String)

/-- `getSchema` (lines 94-137): open and CSV-parse the file, then validate
the rows. -/
def getSchemaResult (env : Env) (fileName : String) : GoResult (List Field) :=
  match env.schemaRows fileName with
  | .err e => .err e
  | .panicked => .panicked
  | .ok records => parseSchemaRows records

/-- The record loop of `main` (lines 65-73): a record whose decoding returns
an error is logged and skipped; a successfully decoded record's JSON is
POSTed (collected here, in order). A panic aborts the whole run. -/
def processRecords (schema : List Field) : List String → GoResult (List String)
  | [] => .ok []
  | record :: rest =>
    match getRecordJson record schema with
    | .panicked => .panicked
    | .err _ => processRecords schema rest
    | .ok json =>
      match processRecords schema rest with
      | .ok posted => .ok (json :: posted)
      | r => r

/-- One iteration of `main`'s schema-file loop (lines 43-74): schema failure,
missing dot and data-file failure each log and skip the file (yielding no
posts); otherwise every line of the data file is processed. -/
def processSchemaFile (env : Env) (fileName : String) : GoResult (List String) :=
  match getSchemaResult env fileName with
  | .panicked => .panicked
  | .err _ => .ok []
  | .ok schema =>
    match dataFileNameOf fileName with
    | none => .ok []
    | some dataFileName =>
      match env.dataLines dataFileName with
      | .panicked => .panicked
      | .err _ => .ok []
      | .ok dataRecords => processRecords schema dataRecords

def processSchemaFiles (env : Env) : List String → GoResult (List String)
  | [] => .ok []
  | name :: rest =>
    match processSchemaFile env name with
    | .panicked => .panicked
    | .err e => .err e
    | .ok posted =>
      match processSchemaFiles env rest with
      | .ok more => .ok (posted ++ more)
      | r => r

/-- `main` (lines 36-75): a failing directory listing is `log.Panic` (abnormal
termination); otherwise each schema file is processed in turn. The result
collects the POSTed payloads of a normal run. -/
def runMain (env : Env) : GoResult (List String) :=
  match env.schemaDirListing with
  | .ok names => processSchemaFiles env names
  | _ => .panicked

/-- Sum of the schema's field widths. -/
def totalWidth (schema : List Field) : Int :=
  (schema.map Field.Width).sum

/-- Modelled from the spec: "reconstructing the line from field byte-ranges" —
the concatenation, in schema order, of the line's per-field byte-ranges
`[offset, offset+width)` at cumulative offsets. -/
def specReencode (line : List Char) : List Field → Int → List Char
  | [], _ => []
  | field :: rest, offset =>
    (line.drop offset.toNat).take field.Width.toNat ++
      specReencode line rest (offset + field.Width)

/-- Modelled from the spec: "a Decoded Record with one entry per field, in
schema order" — the decoder's result represented as an ordered list of
(field name, typed value) entries instead of a Go map, with the same
slicing, trimming and coercion as `decodeFields`. -/
def specDecode (line : List Char) : List Field → Int → GoResult (List (String × Value))
  | [], _ => .ok []
  | field :: rest, startIndex =>
    match goSlice line startIndex (startIndex + field.Width) with
    | .panicked => .panicked
    | .err e => .err e
    | .ok raw =>
      match coerce field.type ⟨trimSpaceL raw⟩ with
      | .err e => .err e
      | .panicked => .panicked
      | .ok none => specDecode line rest (startIndex + field.Width)
      | .ok (some v) =>
        match specDecode line rest (startIndex + field.Width) with
        | .ok entries => .ok ((field.Name, v) :: entries)
        | r => r

/-- A schema row's trimmed width column parses as an integer. -/
def rowWidthOk (r : List String) : Bool :=
  (Atoi (trimSpace (r.getD CSV_WIDTH_INDEX ""))).isSome

/-- A schema row's type column is one of the three data types. -/
def rowTypeOk (r : List String) : Bool :=
  (r.getD CSV_DATA_TYPE_INDEX "" == DATA_TYPE_BOOLEAN) ||
  (r.getD CSV_DATA_TYPE_INDEX "" == DATA_TYPE_INTEGER) ||
  (r.getD CSV_DATA_TYPE_INDEX "" == DATA_TYPE_TEXT)

def rowOk (r : List String) : Bool := rowWidthOk r && rowTypeOk r

/-- The field a valid schema row denotes. -/
def mkField (r : List String) : Field :=
  ⟨r.getD CSV_NAME_INDEX "",
   (Atoi (trimSpace (r.getD CSV_WIDTH_INDEX ""))).getD 0,
   r.getD CSV_DATA_TYPE_INDEX ""⟩

/-- A field type is in the vocabulary `getSchema` admits. -/
def validType (t : String) : Prop :=
  t = DATA_TYPE_BOOLEAN ∨ t = DATA_TYPE_INTEGER ∨ t = DATA_TYPE_TEXT

/-! ### Supporting lemmas -/

theorem goSlice_ne_err (s : List Char) (a b : Int) (e : GoError) :
    goSlice s a b ≠ .err e := by
  unfold goSlice; split <;> simp

theorem goSlice_ok_bounds {s : List Char} {a b : Int} {raw : List Char}
    (h : goSlice s a b = .ok raw) :
    0 ≤ a ∧ a ≤ b ∧ b ≤ (s.length : Int) ∧
      raw = (s.drop a.toNat).take (b - a).toNat := by
  unfold goSlice at h
  split at h
  · rename_i hc
    exact ⟨hc.1, hc.2.1, hc.2.2, by cases h; rfl⟩
  · cases h

theorem goSlice_ok_length {s : List Char} {a b : Int} {raw : List Char}
    (h : goSlice s a b = .ok raw) : (raw.length : Int) = b - a := by
  obtain ⟨h0, hab, hb, hraw⟩ := goSlice_ok_bounds h
  subst hraw
  simp only [List.length_take, List.length_drop]
  omega

theorem coerce_ne_panicked (t v : String) : coerce t v ≠ .panicked := by
  unfold coerce
  split
  · split <;> simp
  · split
    · split <;> simp
    · split <;> simp

theorem coerce_err_shape {t v : String} {e : GoError}
    (h : coerce t v = .err e) :
    (∃ u, e = .invalidBoolean u) ∨ (∃ u, e = .invalidInteger u) := by
  unfold coerce at h
  split at h
  · split at h
    · exact Or.inl ⟨v, by cases h; rfl⟩
    · cases h
  · split at h
    · split at h
      · exact Or.inr ⟨v, by cases h; rfl⟩
      · cases h
    · split at h <;> cases h

theorem coerce_valid_ok_some {t v : String} {o : Option Value}
    (ht : validType t) (h : coerce t v = .ok o) : ∃ u, o = some u := by
  unfold coerce at h
  rcases ht with ht | ht | ht <;> rw [ht] at h <;> simp [DATA_TYPE_BOOLEAN,
    DATA_TYPE_INTEGER, DATA_TYPE_TEXT] at h
  · rcases hp : ParseBool v with _ | b <;> rw [hp] at h
    · cases h
    · exact ⟨_, by cases h; rfl⟩
  · rcases hp : Atoi v with _ | n <;> rw [hp] at h
    · cases h
    · exact ⟨_, by cases h; rfl⟩
  · exact ⟨_, by cases h; rfl⟩

theorem decodeFields_err_shape (schema : List Field) :
    ∀ (line : List Char) (s : Int) (acc : List (String × Value)) (e : GoError),
      decodeFields line schema s acc = .err e →
      (∃ u, e = .invalidBoolean u) ∨ (∃ u, e = .invalidInteger u) := by
  induction schema with
  | nil => intro line s acc e h; simp [decodeFields] at h
  | cons f rest ih =>
    intro line s acc e h
    simp only [decodeFields] at h
    split at h
    · exact absurd h (by simp)
    · rename_i e' heq
      exact absurd heq (goSlice_ne_err _ _ _ _)
    · rename_i raw heq
      split at h
      · rename_i e'' hc
        cases h
        exact coerce_err_shape hc
      · rename_i hc
        exact absurd hc (coerce_ne_panicked _ _)
      · exact ih _ _ _ _ h
      · exact ih _ _ _ _ h

theorem lastIndexDotList_eq_neg_one {l : List Char} (h : '.' ∉ l) :
    lastIndexDotList l = -1 := by
  induction l with
  | nil => rfl
  | cons c cs ih =>
    have h1 : ¬ c = '.' := fun hc => h (hc ▸ List.mem_cons_self c cs)
    have h2 : '.' ∉ cs := fun hm => h (List.mem_cons_of_mem c hm)
    simp [lastIndexDotList, ih h2, h1]

theorem lastIndexDotList_append (pre post : List Char) (h : '.' ∉ post) :
    lastIndexDotList (pre ++ '.' :: post) = (pre.length : Int) := by
  induction pre with
  | nil =>
    simp [lastIndexDotList, lastIndexDotList_eq_neg_one h]
  | cons c cs ih =>
    simp only [List.cons_append, lastIndexDotList, List.length_cons]
    rw [List.append_eq, ih, if_pos (Int.natCast_nonneg cs.length)]
    push_cast
    ring

theorem goIndex_eq_getD {l : List String} {i : Nat} (h : i < l.length) :
    goIndex l i = .ok (l.getD i "") := by
  unfold goIndex
  rw [dif_pos h]
  congr 1
  exact (List.getD_eq_get l "" h).symm

/-! ### Claims -/

/-- C1: the specification says a data line shorter than the schema's total
width fails with a `LineTooShort` error which the coordinator logs and
skips, continuing with the remaining lines. The code instead performs an
out-of-range string slice, which is an unrecovered runtime panic: on the
spec's own example (schema `id:3 INTEGER, flag:1 BOOLEAN`, line `"04"`)
`getRecordJson` panics, and the record loop aborts without ever reaching the
following well-formed line `"042T"`. -/
theorem C1_short_line_panics :
    getRecordJson "04"
        [⟨"id", 3, DATA_TYPE_INTEGER⟩, ⟨"flag", 1, DATA_TYPE_BOOLEAN⟩] = .panicked ∧
    processRecords [⟨"id", 3, DATA_TYPE_INTEGER⟩, ⟨"flag", 1, DATA_TYPE_BOOLEAN⟩]
        ["04", "042T"] = .panicked :=
  ⟨rfl, rfl⟩

/-- The environment of the C2 run: the schema directory lists successfully,
the single schema file is well-formed, and its data file contains one line
that is shorter than the schema's total width. -/
def envShortLine : Env :=
  { schemaDirListing := .ok ["m.csv"]
    schemaRows := fun n =>
      if n = "m.csv" then .ok [["id", "3", "INTEGER"]] else .err (.ioError "open")
    dataLines := fun n =>
      if n = "m.txt" then .ok ["04"] else .err (.ioError "open") }

/-- C2: the specification says the program terminates abnormally only when
the schema directory cannot be listed, and that every other failure
(including a malformed line) is logged and the run continues to a normal
exit. The code violates this: in a run whose directory listing succeeds,
whose schema file is valid, and whose data file holds the malformed (too
short) line `"04"`, the out-of-range slice in `getRecordJson` is an
unrecovered panic and the whole run terminates abnormally. -/
theorem C2_run_panics_despite_good_listing :
    runMain envShortLine = .panicked ∧ envShortLine.schemaDirListing = .ok ["m.csv"] :=
  ⟨rfl, rfl⟩

/-- C4: decoding the line `"042T"` with the schema
`[id:3 INTEGER, flag:1 BOOLEAN]` succeeds; the first three characters parse
as the integer 42 and `"T"` parses as the boolean `true`, giving the record
`id ↦ 42, flag ↦ true` and its JSON serialization. -/
theorem C4_example_decodes :
    decodeFields "042T".data
        [⟨"id", 3, DATA_TYPE_INTEGER⟩, ⟨"flag", 1, DATA_TYPE_BOOLEAN⟩] 0 [] =
      .ok [("id", Value.int 42), ("flag", Value.bool true)] ∧
    getRecordJson "042T"
        [⟨"id", 3, DATA_TYPE_INTEGER⟩, ⟨"flag", 1, DATA_TYPE_BOOLEAN⟩] =
      .ok "\x7b\"flag\":true,\"id\":42\x7d" :=
  ⟨rfl, rfl⟩

/-- C5 counterexample: a schema source that parses as tabular rows but whose
row has only two columns makes `getSchema` panic on the out-of-range access
`record[2]` — it neither fails with an `InvalidWidth`/`InvalidType` error
nor returns a field list, contradicting the claim's dichotomy. -/
theorem C5_counterexample_short_row_panics :
    parseSchemaRows [["a", "2"]] = .panicked := rfl

/-- C6 counterexample: the width column `"0"` parses as the integer 0, so
`getSchema` accepts it and returns a schema containing a field of width 0 —
a non-positive width is not rejected, contradicting the claim. -/
theorem C6_counterexample_zero_width_accepted :
    parseSchemaRows [["m", "0", "TEXT"]] = .ok [⟨"m", 0, DATA_TYPE_TEXT⟩] ∧
    ¬ (0 : Int) < 0 :=
  ⟨rfl, by decide⟩

/-- C7 counterexample: with two fields that share the name `"a"`, decoding
`"xy"` succeeds but the Go map holds a single entry (the second write
overwrites the first), so the record does not have one entry per field. -/
theorem C7_counterexample_duplicate_names :
    decodeFields ['x', 'y']
        [⟨"a", 1, DATA_TYPE_TEXT⟩, ⟨"a", 1, DATA_TYPE_TEXT⟩] 0 [] =
      .ok [("a", Value.str "y")] ∧
    ([("a", Value.str "y")] : List (String × Value)).length ≠
      ([⟨"a", 1, DATA_TYPE_TEXT⟩, ⟨"a", 1, DATA_TYPE_TEXT⟩] : List Field).length :=
  ⟨rfl, by decide⟩

/-- C10 counterexample: with the loadable schema `a:5 INTEGER, b:-4 TEXT`
(total width 1), the lines `"7"` and `"7bcde"` agree on their first
total-width characters and both meet the length bound, yet decoding the
first panics (slice past the end) while decoding the second returns an
`InvalidInteger` error — characters beyond the total width changed the
outcome. -/
theorem C10_counterexample_trailing_chars_matter :
    totalWidth [⟨"a", 5, DATA_TYPE_INTEGER⟩, ⟨"b", -4, DATA_TYPE_TEXT⟩] = 1 ∧
    (['7'] : List Char).take 1 = (['7', 'b', 'c', 'd', 'e'] : List Char).take 1 ∧
    decodeFields ['7']
        [⟨"a", 5, DATA_TYPE_INTEGER⟩, ⟨"b", -4, DATA_TYPE_TEXT⟩] 0 [] = .panicked ∧
    decodeFields ['7', 'b', 'c', 'd', 'e']
        [⟨"a", 5, DATA_TYPE_INTEGER⟩, ⟨"b", -4, DATA_TYPE_TEXT⟩] 0 [] =
      .err (.invalidInteger "7bcde") ∧
    GoResult.panicked ≠
      (.err (.invalidInteger "7bcde") : GoResult (List (String × Value))) :=
  ⟨rfl, rfl, rfl, rfl, by decide⟩

/-- C9: the JSON-serialization failure branch of `getRecordJson` is
unreachable: every value placed in the decoded record is a string, int or
bool keyed by a string, marshalling such a map is total, and therefore
`getRecordJson` returns an error only when a BOOLEAN or INTEGER field value
fails to parse. -/
theorem C9_marshal_branch_unreachable (dataRecord : String) (schema : List Field)
    (e : GoError) (h : getRecordJson dataRecord schema = .err e) :
    (∃ u, e = .invalidBoolean u) ∨ (∃ u, e = .invalidInteger u) := by
  unfold getRecordJson at h
  split at h
  · simp at h
  · rename_i e' heq
    cases h
    exact decodeFields_err_shape schema dataRecord.data 0 [] e heq
  · simp at h

/-- C9 witness: on the schema `a:1 INTEGER` and line `"x"` the decoder
returns `InvalidInteger`, and the theorem classifies this error. -/
theorem C9_witness :
    getRecordJson "x" [⟨"a", 1, DATA_TYPE_INTEGER⟩] = .err (.invalidInteger "x") ∧
    ((∃ u, GoError.invalidInteger "x" = .invalidBoolean u) ∨
      (∃ u, GoError.invalidInteger "x" = .invalidInteger u)) :=
  ⟨rfl, C9_marshal_branch_unreachable "x" [⟨"a", 1, DATA_TYPE_INTEGER⟩] _ rfl⟩

/-- C8: the paired data file name replaces everything from (and including)
the schema file name's last `.` through the end with `".txt"`; a name with
no `.` yields no data file name, and the coordinator then skips the file
(producing no posts) without consulting the data directory. -/
theorem C8_data_file_pairing :
    (∀ pre post : String, '.' ∉ post.data →
        dataFileNameOf (pre ++ "." ++ post) = some (pre ++ ".txt")) ∧
    (∀ s : String, '.' ∉ s.data → dataFileNameOf s = none) ∧
    (∀ (env : Env) (fileName : String) (schema : List Field),
        getSchemaResult env fileName = .ok schema →
        dataFileNameOf fileName = none →
        processSchemaFile env fileName = .ok []) := by
  refine ⟨?_, ?_, ?_⟩
  · intro pre post h
    have hdata : (pre ++ "." ++ post).data = pre.data ++ '.' :: post.data := by
      simp [String.data_append]
    unfold dataFileNameOf
    rw [hdata, lastIndexDotList_append _ _ h]
    rw [if_neg (by omega)]
    congr 1
    apply String.ext
    simp [String.data_append, Int.toNat_natCast, List.take_left]
  · intro s h
    unfold dataFileNameOf
    rw [lastIndexDotList_eq_neg_one h]
    simp
  · intro env fileName schema hok hnone
    unfold processSchemaFile
    rw [hok, hnone]

/-- C8 witness: `"m.csv"` pairs with `"m.txt"`; `"mcsv"` has no extension
separator, so the coordinator skips it without loading data. -/
theorem C8_witness :
    dataFileNameOf ("m" ++ "." ++ "csv") = some ("m" ++ ".txt") ∧
    dataFileNameOf "mcsv" = none ∧
    processSchemaFile
      { schemaDirListing := .ok ["mcsv"]
        schemaRows := fun _ => .ok [["id", "3", "INTEGER"]]
        dataLines := fun _ => .ok ["042"] } "mcsv" = .ok [] :=
  ⟨C8_data_file_pairing.1 "m" "csv" (by decide),
   C8_data_file_pairing.2.1 "mcsv" (by decide),
   C8_data_file_pairing.2.2 _ "mcsv" [⟨"id", 3, DATA_TYPE_INTEGER⟩] rfl rfl⟩

/-- C6 (amended): a successful load constrains a row's width only to be a
parseable integer — zero and negative parsed widths are accepted and appear
unchanged in the returned schema, so schemas with non-positive field widths
are handed to the decoder. -/
theorem C6_load_accepts_nonpositive_widths (name wstr t : String) (w : Int)
    (ht : validType t) (hw : Atoi (trimSpace wstr) = some w) :
    parseSchemaRows [[name, wstr, t]] = .ok [⟨name, w, t⟩] := by
  have h1 : goIndex [name, wstr, t] CSV_WIDTH_INDEX = .ok wstr := rfl
  have h2 : goIndex [name, wstr, t] CSV_DATA_TYPE_INDEX = .ok t := rfl
  have h0 : goIndex [name, wstr, t] CSV_NAME_INDEX = .ok name := rfl
  have hcond : ¬(t ≠ DATA_TYPE_BOOLEAN ∧ t ≠ DATA_TYPE_INTEGER ∧ t ≠ DATA_TYPE_TEXT) := by
    rcases ht with ht | ht | ht <;> simp [ht]
  simp only [parseSchemaRows, h1, h2, h0, hw]
  rw [if_neg hcond]

/-- C5 (amended): for every schema source that parses as tabular rows each
having at least three columns, `getSchema` returns the ordered field list
matching row order when every row's trimmed width column parses as an
integer and every row's type column is one of TEXT/INTEGER/BOOLEAN, and
otherwise fails on the first bad row — with `InvalidWidth` when that row's
width does not parse, with `InvalidType` when its width parses but its type
is not in the vocabulary — yielding an error and no partial field list. -/
theorem C5_schema_load_characterization (rows : List (List String))
    (h3 : ∀ r ∈ rows, 3 ≤ r.length) :
    ((∀ r ∈ rows, rowOk r = true) → parseSchemaRows rows = .ok (rows.map mkField)) ∧
    (∀ r, rows.find? (fun x => ! rowOk x) = some r →
        parseSchemaRows rows =
          .err (if rowWidthOk r then .invalidType (r.getD CSV_DATA_TYPE_INDEX "")
                else .invalidWidth (trimSpace (r.getD CSV_WIDTH_INDEX "")))) := by
  induction rows with
  | nil =>
    refine ⟨fun _ => rfl, fun r hr => ?_⟩
    simp at hr
  | cons r0 rest ih =>
    have hr0 : 3 ≤ r0.length := h3 r0 (List.mem_cons_self _ _)
    have hrest : ∀ r ∈ rest, 3 ≤ r.length := fun r hr => h3 r (List.mem_cons_of_mem _ hr)
    obtain ⟨ih1, ih2⟩ := ih hrest
    have h1 : goIndex r0 CSV_WIDTH_INDEX = .ok (r0.getD CSV_WIDTH_INDEX "") :=
      goIndex_eq_getD (by simp only [CSV_WIDTH_INDEX]; omega)
    have h2i : goIndex r0 CSV_DATA_TYPE_INDEX = .ok (r0.getD CSV_DATA_TYPE_INDEX "") :=
      goIndex_eq_getD (by simp only [CSV_DATA_TYPE_INDEX]; omega)
    have h0 : goIndex r0 CSV_NAME_INDEX = .ok (r0.getD CSV_NAME_INDEX "") :=
      goIndex_eq_getD (by simp only [CSV_NAME_INDEX]; omega)
    by_cases hw : rowWidthOk r0 = true
    · obtain ⟨w, hwv⟩ := Option.isSome_iff_exists.mp hw
      by_cases ht : rowTypeOk r0 = true
      · have hOk : rowOk r0 = true := by simp [rowOk, hw, ht]
        have hcond : ¬(r0.getD CSV_DATA_TYPE_INDEX "" ≠ DATA_TYPE_BOOLEAN ∧
            r0.getD CSV_DATA_TYPE_INDEX "" ≠ DATA_TYPE_INTEGER ∧
            r0.getD CSV_DATA_TYPE_INDEX "" ≠ DATA_TYPE_TEXT) := by
          simp only [rowTypeOk, Bool.or_eq_true, beq_iff_eq] at ht
          tauto
        constructor
        · intro hall
          have hrestok : parseSchemaRows rest = .ok (rest.map mkField) :=
            ih1 (fun r hr => hall r (List.mem_cons_of_mem _ hr))
          have hmk : mkField r0 =
              ⟨r0.getD CSV_NAME_INDEX "", w, r0.getD CSV_DATA_TYPE_INDEX ""⟩ := by
            simp only [mkField, hwv, Option.getD_some]
          simp only [parseSchemaRows, h1, hwv, h2i, h0, hrestok, if_neg hcond,
            List.map_cons, hmk]
        · intro r hr
          have hskip : List.find? (fun x => ! rowOk x) (r0 :: rest) =
              List.find? (fun x => ! rowOk x) rest :=
            List.find?_cons_of_neg rest (by simp [hOk])
          rw [hskip] at hr
          have hresterr := ih2 r hr
          simp only [parseSchemaRows, h1, hwv, h2i, h0, if_neg hcond, hresterr]
      · have hcond : r0.getD CSV_DATA_TYPE_INDEX "" ≠ DATA_TYPE_BOOLEAN ∧
            r0.getD CSV_DATA_TYPE_INDEX "" ≠ DATA_TYPE_INTEGER ∧
            r0.getD CSV_DATA_TYPE_INDEX "" ≠ DATA_TYPE_TEXT := by
          simp only [rowTypeOk, Bool.or_eq_true, beq_iff_eq] at ht
          tauto
        have htf : rowTypeOk r0 = false := Bool.not_eq_true _ ▸ Bool.of_not_eq_true ht
        have hbad : (! rowOk r0) = true := by
          simp only [rowOk, htf, Bool.and_false, Bool.not_false]
        constructor
        · intro hall
          have hthis := hall r0 (List.mem_cons_self _ _)
          simp only [rowOk, Bool.and_eq_true] at hthis
          exact absurd hthis.2 ht
        · intro r hr
          have hfst : List.find? (fun x => ! rowOk x) (r0 :: rest) = some r0 :=
            List.find?_cons_of_pos rest hbad
          rw [hfst] at hr
          injection hr with hr
          subst hr
          simp only [parseSchemaRows, h1, hwv, h2i, if_pos hcond]
          rw [if_pos hw]
    · have hwn : Atoi (trimSpace (r0.getD CSV_WIDTH_INDEX "")) = none := by
        rw [rowWidthOk] at hw
        exact Option.not_isSome_iff_eq_none.mp (by simpa using hw)
      have hbad : (! rowOk r0) = true := by
        simp only [rowOk, rowWidthOk, hwn, Option.isSome_none, Bool.false_and,
          Bool.not_false]
      constructor
      · intro hall
        have hthis := hall r0 (List.mem_cons_self _ _)
        simp only [rowOk, rowWidthOk, hwn, Option.isSome_none, Bool.false_and] at hthis
        exact absurd hthis (by decide)
      · intro r hr
        have hfst : List.find? (fun x => ! rowOk x) (r0 :: rest) = some r0 :=
          List.find?_cons_of_pos rest hbad
        rw [hfst] at hr
        injection hr with hr
        subst hr
        simp only [parseSchemaRows, h1, hwn]
        rw [if_neg hw]

/-- C5 witness: a fully valid source loads into the matching field list, and
a source whose second row has the unparseable width `"x"` fails with
`InvalidWidth` and no field list. -/
theorem C5_witness :
    parseSchemaRows [["id", "3", "INTEGER"]] = .ok [⟨"id", 3, DATA_TYPE_INTEGER⟩] ∧
    parseSchemaRows [["id", "3", "INTEGER"], ["bad", "x", "TEXT"]] =
      .err (.invalidWidth "x") := by
  constructor
  · have h := (C5_schema_load_characterization [["id", "3", "INTEGER"]]
      (by decide)).1 (by decide)
    simpa using h
  · have h := (C5_schema_load_characterization
      [["id", "3", "INTEGER"], ["bad", "x", "TEXT"]] (by decide)).2
      ["bad", "x", "TEXT"] (by decide)
    simpa using h

/-- C6 witness: the row `["m", "-7", "TEXT"]` loads successfully into a
field of width -7. -/
theorem C6_witness :
    parseSchemaRows [["m", "-7", "TEXT"]] = .ok [⟨"m", -7, DATA_TYPE_TEXT⟩] :=
  C6_load_accepts_nonpositive_widths "m" "-7" "TEXT" (-7)
    (Or.inr (Or.inr rfl)) (by decide)

theorem goSlice_concat (pre raw tail : List Char) (w : Int)
    (hw : (raw.length : Int) = w) :
    goSlice (pre ++ (raw ++ tail)) (pre.length : Int) ((pre.length : Int) + w) =
      .ok raw := by
  unfold goSlice
  rw [if_pos]
  · have h1 : ((pre.length : Int)).toNat = pre.length := by omega
    have h2 : (((pre.length : Int) + w) - (pre.length : Int)).toNat = raw.length := by
      omega
    rw [h1, h2, List.drop_left, List.take_left]
  · refine ⟨by positivity, by omega, ?_⟩
    simp only [List.length_append]
    push_cast
    omega

theorem decode_reencode_general (schema : List Field) :
    ∀ (line : List Char) (s : Int) (acc res : List (String × Value)) (pre : List Char),
      decodeFields line schema s acc = .ok res →
      decodeFields (pre ++ specReencode line schema s) schema (pre.length : Int) acc =
        .ok res := by
  induction schema with
  | nil =>
    intro line s acc res pre h
    simpa [decodeFields, specReencode] using h
  | cons f rest ih =>
    intro line s acc res pre h
    simp only [decodeFields] at h
    split at h
    · exact absurd h (by simp)
    · rename_i e heq
      exact absurd heq (goSlice_ne_err _ _ _ _)
    · rename_i raw heq
      obtain ⟨h0s, hsw, hlen, hraw⟩ := goSlice_ok_bounds heq
      have hrawlen : (raw.length : Int) = f.Width := by
        have := goSlice_ok_length heq
        omega
      have hchunk : (line.drop s.toNat).take f.Width.toNat = raw := by
        rw [hraw]
        congr 1
        omega
      have hg2 : goSlice
          (pre ++ (raw ++ specReencode line rest (s + f.Width)))
          (pre.length : Int) ((pre.length : Int) + f.Width) = .ok raw :=
        goSlice_concat pre raw _ f.Width hrawlen
      simp only [specDecode, decodeFields, specReencode, hchunk, hg2]
      rcases hc : coerce f.type ⟨trimSpaceL raw⟩ with o | e | _ <;> simp only [hc] at h ⊢
      · rcases o with _ | v
        · have hrec := ih line (s + f.Width) acc res (pre ++ raw) h
          rw [List.append_assoc] at hrec
          rw [List.length_append] at hrec
          push_cast at hrec
          rw [hrawlen] at hrec
          exact hrec
        · have hrec := ih line (s + f.Width) (mapInsert acc f.Name v) res (pre ++ raw) h
          rw [List.append_assoc] at hrec
          rw [List.length_append] at hrec
          push_cast at hrec
          rw [hrawlen] at hrec
          exact hrec
      · exact absurd h (by simp)
      · exact absurd hc (coerce_ne_panicked _ _)

/-- C3: decode is idempotent on its own encoding — for every loaded schema
and every line at least the total schema width long whose decoding yields a
record of typed values, concatenating the line's per-field byte-ranges in
schema order and decoding the reconstructed line yields the same typed
values. -/
theorem C3_decode_roundtrip (schema : List Field) (line : List Char)
    (vals : List (String × Value))
    (_hlen : totalWidth schema ≤ (line.length : Int))
    (h : decodeFields line schema 0 [] = .ok vals) :
    decodeFields (specReencode line schema 0) schema 0 [] = .ok vals := by
  have hgen := decode_reencode_general schema line 0 [] vals [] h
  simpa using hgen

/-- C3 witness: decoding `"042"` with the schema `id:3 INTEGER` yields
`id ↦ 42`, and decoding its own reencoding yields the same record. -/
theorem C3_witness :
    decodeFields (specReencode "042".data [⟨"id", 3, DATA_TYPE_INTEGER⟩] 0)
        [⟨"id", 3, DATA_TYPE_INTEGER⟩] 0 [] = .ok [("id", Value.int 42)] :=
  C3_decode_roundtrip _ _ _ (by decide) rfl

theorem totalWidth_nonneg :
    ∀ (schema : List Field), (∀ f ∈ schema, 0 ≤ f.Width) → 0 ≤ totalWidth schema := by
  intro schema
  induction schema with
  | nil => intro _; simp [totalWidth]
  | cons f rest ih =>
    intro h
    have h1 := h f (List.mem_cons_self _ _)
    have h2 := ih (fun g hg => h g (List.mem_cons_of_mem _ hg))
    simp only [totalWidth, List.map_cons, List.sum_cons]
    simp only [totalWidth] at h2
    omega

theorem take_drop_take_eq {l₁ l₂ : List Char} {T a b : Nat}
    (h : l₁.take T = l₂.take T) (hab : a + b ≤ T) :
    (l₁.drop a).take b = (l₂.drop a).take b := by
  have key : ∀ l : List Char, (l.drop a).take b = ((l.take T).drop a).take b := by
    intro l
    rw [List.drop_take, List.take_take]
    congr 1
    omega
  rw [key l₁, key l₂, h]

theorem decode_prefix_general (schema : List Field) :
    ∀ (l₁ l₂ : List Char) (s : Int) (acc : List (String × Value)),
      (∀ f ∈ schema, 0 ≤ f.Width) → 0 ≤ s →
      s + totalWidth schema ≤ (l₁.length : Int) →
      s + totalWidth schema ≤ (l₂.length : Int) →
      l₁.take (s + totalWidth schema).toNat = l₂.take (s + totalWidth schema).toNat →
      decodeFields l₁ schema s acc = decodeFields l₂ schema s acc := by
  induction schema with
  | nil => intro l₁ l₂ s acc _ _ _ _ _; simp [decodeFields]
  | cons f rest ih =>
    intro l₁ l₂ s acc hw h0 hl1 hl2 htake
    have hwf : 0 ≤ f.Width := hw f (List.mem_cons_self _ _)
    have hwr : ∀ g ∈ rest, 0 ≤ g.Width := fun g hg => hw g (List.mem_cons_of_mem _ hg)
    have htr : 0 ≤ totalWidth rest := totalWidth_nonneg rest hwr
    have htot : totalWidth (f :: rest) = f.Width + totalWidth rest := by
      simp [totalWidth]
    rw [htot] at hl1 hl2 htake
    have hslice : ∀ l : List Char, s + (f.Width + totalWidth rest) ≤ (l.length : Int) →
        goSlice l s (s + f.Width) = .ok ((l.drop s.toNat).take f.Width.toNat) := by
      intro l hl
      unfold goSlice
      rw [if_pos ⟨h0, by omega, by omega⟩]
      have harg : (s + f.Width - s).toNat = f.Width.toNat := by omega
      rw [harg]
    have hg₁ := hslice l₁ hl1
    have hg₂ := hslice l₂ hl2
    have hraweq : (l₁.drop s.toNat).take f.Width.toNat =
        (l₂.drop s.toNat).take f.Width.toNat :=
      take_drop_take_eq htake (by omega)
    simp only [decodeFields, hg₁, hg₂, hraweq]
    rcases hc : coerce f.type ⟨trimSpaceL ((l₂.drop s.toNat).take f.Width.toNat)⟩ with
      o | e | _
    · have hT : (s + (f.Width + totalWidth rest)).toNat =
          ((s + f.Width) + totalWidth rest).toNat := by omega
      rw [hT] at htake
      rcases o with _ | v <;> simp only [hc]
      · exact ih l₁ l₂ (s + f.Width) acc hwr (by omega) (by omega) (by omega) htake
      · exact ih l₁ l₂ (s + f.Width) (mapInsert acc f.Name v) hwr (by omega)
          (by omega) (by omega) htake
    · simp only [hc]
    · simp only [hc]

/-- C10 (amended): for every schema all of whose field widths are
nonnegative (in particular any schema the decoder can fully traverse), any
two lines that are at least the total schema width long and agree on their
first total-schema-width characters decode to the same result — characters
beyond the total schema width never affect the outcome. -/
theorem C10_decode_determined_by_total_width (schema : List Field)
    (l₁ l₂ : List Char) (hw : ∀ f ∈ schema, 0 ≤ f.Width)
    (h1 : totalWidth schema ≤ (l₁.length : Int))
    (h2 : totalWidth schema ≤ (l₂.length : Int))
    (ht : l₁.take (totalWidth schema).toNat = l₂.take (totalWidth schema).toNat) :
    decodeFields l₁ schema 0 [] = decodeFields l₂ schema 0 [] := by
  have h1' : (0 : Int) + totalWidth schema ≤ (l₁.length : Int) := by
    rw [zero_add]; exact h1
  have h2' : (0 : Int) + totalWidth schema ≤ (l₂.length : Int) := by
    rw [zero_add]; exact h2
  have ht' : l₁.take ((0 : Int) + totalWidth schema).toNat =
      l₂.take ((0 : Int) + totalWidth schema).toNat := by
    rw [zero_add]; exact ht
  exact decode_prefix_general schema l₁ l₂ 0 [] hw le_rfl h1' h2' ht'

/-- C10 witness: with the schema `t:2 TEXT`, the lines `"ab"` and `"abZ"`
agree on their first two characters and decode identically. -/
theorem C10_witness :
    decodeFields ['a', 'b'] [⟨"t", 2, DATA_TYPE_TEXT⟩] 0 [] =
      decodeFields ['a', 'b', 'Z'] [⟨"t", 2, DATA_TYPE_TEXT⟩] 0 [] :=
  C10_decode_determined_by_total_width [⟨"t", 2, DATA_TYPE_TEXT⟩]
    ['a', 'b'] ['a', 'b', 'Z'] (by decide) (by decide) (by decide) (by decide)

theorem decodeFields_eq_fold (schema : List Field) :
    ∀ (line : List Char) (s : Int) (acc : List (String × Value)),
      decodeFields line schema s acc =
        match specDecode line schema s with
        | .ok entries => .ok (entries.foldl (fun m p => mapInsert m p.1 p.2) acc)
        | .err e => .err e
        | .panicked => .panicked := by
  induction schema with
  | nil => intro line s acc; simp [decodeFields, specDecode]
  | cons f rest ih =>
    intro line s acc
    simp only [decodeFields, specDecode]
    rcases hg : goSlice line s (s + f.Width) with raw | e | _
    · rcases hc : coerce f.type ⟨trimSpaceL raw⟩ with o | e | _
      · rcases o with _ | v <;> simp only [hg, hc]
        · exact ih line (s + f.Width) acc
        · rcases hs : specDecode line rest (s + f.Width) with entries | e | _ <;>
            simp only [ih line (s + f.Width) (mapInsert acc f.Name v), hs,
              List.foldl_cons]
      · simp only [hg, hc]
      · simp only [hg, hc]
    · simp only [hg]
    · simp only [hg]

theorem specDecode_keys (schema : List Field) :
    ∀ (line : List Char) (s : Int) (entries : List (String × Value)),
      (∀ f ∈ schema, validType f.type) →
      specDecode line schema s = .ok entries →
      entries.map Prod.fst = schema.map Field.Name := by
  induction schema with
  | nil =>
    intro line s entries _ h
    simp only [specDecode] at h
    cases h
    simp
  | cons f rest ih =>
    intro line s entries hv h
    simp only [specDecode] at h
    split at h
    · exact absurd h (by simp)
    · rename_i e heq
      exact absurd heq (goSlice_ne_err _ _ _ _)
    · rename_i raw heq
      split at h
      · exact absurd h (by simp)
      · rename_i hc
        exact absurd hc (coerce_ne_panicked _ _)
      · rename_i hc
        obtain ⟨u, hu⟩ := coerce_valid_ok_some (hv f (List.mem_cons_self _ _)) hc
        exact Option.noConfusion hu
      · rename_i v hc
        rcases hs : specDecode line rest (s + f.Width) with entries' | e | _ <;>
          simp only [hs] at h
        · cases h
          simp only [List.map_cons, List.cons.injEq, true_and]
          exact ih line (s + f.Width) entries'
            (fun g hg => hv g (List.mem_cons_of_mem _ hg)) hs
        · exact absurd h (by simp)
        · exact absurd h (by simp)

theorem mapInsert_of_not_mem {m : List (String × Value)} {k : String} (v : Value)
    (h : ∀ q ∈ m, q.1 ≠ k) : mapInsert m k v = m ++ [(k, v)] := by
  unfold mapInsert
  rw [if_neg]
  intro hc
  simp only [List.any_eq_true, beq_iff_eq] at hc
  obtain ⟨p, hp, hpk⟩ := hc
  exact h p hp hpk

theorem foldl_mapInsert_eq_append :
    ∀ (entries acc : List (String × Value)),
      (entries.map Prod.fst).Nodup →
      (∀ p ∈ entries, ∀ q ∈ acc, q.1 ≠ p.1) →
      entries.foldl (fun m p => mapInsert m p.1 p.2) acc = acc ++ entries := by
  intro entries
  induction entries with
  | nil => intro acc _ _; simp
  | cons p ps ih =>
    intro acc hnd hdisj
    simp only [List.map_cons, List.nodup_cons] at hnd
    simp only [List.foldl_cons]
    rw [mapInsert_of_not_mem p.2 (fun q hq => hdisj p (List.mem_cons_self _ _) q hq)]
    rw [ih (acc ++ [p]) hnd.2]
    · simp
    · intro r hr q hq
      rcases List.mem_append.mp hq with hq | hq
      · exact hdisj r (List.mem_cons_of_mem _ hr) q hq
      · simp only [List.mem_singleton] at hq
        subst hq
        intro hqr
        apply hnd.1
        rw [hqr]
        exact List.mem_map_of_mem _ hr

/-- C7 (amended): for every schema whose field types are in the loader's
vocabulary and whose field names are pairwise distinct, and every line on
which decode succeeds, the decoded record has exactly one entry per field
definition — its number of entries equals the number of fields, its keys are
exactly the field names in schema order, and it coincides with the
entry-per-field decoding `specDecode` that maps each field's name to that
field's typed value. -/
theorem C7_one_entry_per_field (schema : List Field) (line : List Char)
    (data : List (String × Value))
    (hv : ∀ f ∈ schema, validType f.type)
    (hnd : (schema.map Field.Name).Nodup)
    (h : decodeFields line schema 0 [] = .ok data) :
    data.length = schema.length ∧
    data.map Prod.fst = schema.map Field.Name ∧
    specDecode line schema 0 = .ok data := by
  rw [decodeFields_eq_fold] at h
  rcases hs : specDecode line schema 0 with entries | e | _ <;> simp only [hs] at h
  · have hkeys := specDecode_keys schema line 0 entries hv hs
    have hfold : entries.foldl (fun m p => mapInsert m p.1 p.2) [] = [] ++ entries :=
      foldl_mapInsert_eq_append entries [] (hkeys ▸ hnd)
        (by intro p _ q hq; simp at hq)
    rw [hfold, List.nil_append] at h
    cases h
    refine ⟨?_, hkeys, rfl⟩
    have hlen := congrArg List.length hkeys
    simpa using hlen
  · exact absurd h (by simp)
  · exact absurd h (by simp)

/-- C7 witness: the schema `a:1 TEXT, b:1 INTEGER` (distinct names) decodes
`"x7"` to a record with one entry per field, keyed by the field names. -/
theorem C7_witness :
    ([("a", Value.str "x"), ("b", Value.int 7)] : List (String × Value)).length =
      ([⟨"a", 1, DATA_TYPE_TEXT⟩, ⟨"b", 1, DATA_TYPE_INTEGER⟩] : List Field).length ∧
    [("a", Value.str "x"), ("b", Value.int 7)].map Prod.fst =
      [(⟨"a", 1, DATA_TYPE_TEXT⟩ : Field), ⟨"b", 1, DATA_TYPE_INTEGER⟩].map Field.Name ∧
    specDecode ['x', '7'] [⟨"a", 1, DATA_TYPE_TEXT⟩, ⟨"b", 1, DATA_TYPE_INTEGER⟩] 0 =
      .ok [("a", Value.str "x"), ("b", Value.int 7)] :=
  C7_one_entry_per_field [⟨"a", 1, DATA_TYPE_TEXT⟩, ⟨"b", 1, DATA_TYPE_INTEGER⟩]
    ['x', '7'] [("a", Value.str "x"), ("b", Value.int 7)]
    (by simp only [validType]; decide) (by decide) rfl

end QMP
